import Mathlib

/-!
Verification of the response-normalization pipeline of the vision backend
(`src/server.js`, the `/recognize` handler).  The pipeline is:

1. `JSON.parse` of the upstream text (on failure: a parse error carrying the
   first 400 characters of the offending text);
2. zod schema validation against
   `z.object({ items: z.array(z.object({ label: z.string(), confidence: z.number(), canonical: z.string() })) })`
   (on failure: a schema error carrying no data; note zod objects *strip*
   unknown keys by default, they do not reject them);
3. sanitize each item (trim + lowercase strings, clamp confidence to [0,1]);
4. filter out items with empty or banned labels;
5. canonicalize via three ordered substring rules (pasta / fries / orange);
6. stable sort descending by confidence and keep the first 5.

JSON numbers are modelled as rationals (every JSON numeric literal denotes a
decimal rational, and comparison/clamping of IEEE doubles agrees with the
exact order on these values).  JS strings are modelled as Lean strings;
`toLowerCase` is modelled on the ASCII range, which covers every constant the
pipeline compares against.
-/

namespace VisionBackend

/-- JSON values as produced by `JSON.parse`; object fields keep source order,
with duplicate keys resolved by `lookupField` (last binding wins, as in JS). -/
inductive Json : Type where
  | null : Json
  | bool (b : Bool) : Json
  | num (q : ℚ) : Json
  | str (s : String) : Json
  | arr (elems : List Json) : Json
  | obj (fields : List (String × Json)) : Json

/-- JSON insignificant whitespace (RFC 8259: space, tab, line feed, carriage return). -/
def jsonWs (c : Char) : Bool :=
  c = ' ' || c = '\t' || c = '\n' || c = '\r'

/-- Skip insignificant whitespace. -/
def skipWs (cs : List Char) : List Char := cs.dropWhile jsonWs

/-- Decimal digit test. -/
def isDigitCh (c : Char) : Bool := '0' ≤ c && c ≤ '9'

/-- Value of a decimal digit. -/
def digitVal (c : Char) : Nat := c.toNat - '0'.toNat

/-- Value of a hexadecimal digit, if any (codes 48-57 are `0`-`9`, 97-102 are
`a`-`f`, 65-70 are `A`-`F`). -/
def hexVal (c : Char) : Option Nat :=
  let n := c.toNat
  if 48 ≤ n && n ≤ 57 then some (n - 48)
  else if 97 ≤ n && n ≤ 102 then some (n - 87)
  else if 65 ≤ n && n ≤ 70 then some (n - 55)
  else none

/-- Parse the body of a JSON string literal (the opening quote already
consumed), accumulating characters in reverse.  Control characters below
U+0020 must be escaped; `\uXXXX` escapes decode to the corresponding scalar
value (non-scalar code units degrade to the default character, a corner the
pipeline never exercises). -/
def parseStrAux : List Char → List Char → Option (String × List Char)
  | _, [] => none
  | acc, '"' :: rest => some (⟨acc.reverse⟩, rest)
  | acc, '\\' :: rest =>
    match rest with
    | 'n' :: rs => parseStrAux ('\n' :: acc) rs
    | 't' :: rs => parseStrAux ('\t' :: acc) rs
    | 'r' :: rs => parseStrAux ('\r' :: acc) rs
    | 'b' :: rs => parseStrAux ('\x08' :: acc) rs
    | 'f' :: rs => parseStrAux ('\x0c' :: acc) rs
    | '"' :: rs => parseStrAux ('"' :: acc) rs
    | '\\' :: rs => parseStrAux ('\\' :: acc) rs
    | '/' :: rs => parseStrAux ('/' :: acc) rs
    | 'u' :: h1 :: h2 :: h3 :: h4 :: rs =>
      match hexVal h1, hexVal h2, hexVal h3, hexVal h4 with
      | some a, some b, some c, some d =>
        parseStrAux (Char.ofNat (d + 16 * (c + 16 * (b + 16 * a))) :: acc) rs
      | _, _, _, _ => none
    | _ => none
  | acc, c :: rest => if c.toNat < 32 then none else parseStrAux (c :: acc) rest

/-- Take a maximal run of decimal digits. -/
def takeDigits : List Char → List Char × List Char
  | [] => ([], [])
  | c :: cs =>
    if isDigitCh c then
      let (ds, rest) := takeDigits cs
      (c :: ds, rest)
    else ([], c :: cs)

/-- Numeric value of a digit string. -/
def digitsToNat (ds : List Char) : Nat := ds.foldl (fun n c => n * 10 + digitVal c) 0

/-- Ten to a natural power, as a rational. -/
def pow10 (n : Nat) : ℚ := ((10 : ℕ) ^ n : ℕ)

/-- Parse an optional fraction part `.digits`; a dot with no digit is an error. -/
def parseFrac : List Char → Option (List Char × List Char)
  | '.' :: cs =>
    match takeDigits cs with
    | ([], _) => none
    | (ds, rest) => some (ds, rest)
  | cs => some ([], cs)

/-- Parse an optional exponent part `[eE][+-]?digits`. -/
def parseExp : List Char → Option (Int × List Char)
  | [] => some (0, [])
  | c :: cs =>
    if c = 'e' || c = 'E' then
      let (eneg, cs1) :=
        match cs with
        | '+' :: r => (false, r)
        | '-' :: r => (true, r)
        | _ => (false, cs)
      match takeDigits cs1 with
      | ([], _) => none
      | (ds, rest) =>
        some ((if eneg then -(digitsToNat ds : Int) else (digitsToNat ds : Int)), rest)
    else some (0, c :: cs)

/-- Assemble a JSON number from sign, integer digits, fraction digits and exponent. -/
def mkJsonNum (neg : Bool) (ids fds : List Char) (e : Int) : ℚ :=
  let m : ℚ := (digitsToNat (ids ++ fds) : ℚ)
  let base := m / pow10 fds.length
  let withExp := if 0 ≤ e then base * pow10 e.toNat else base / pow10 (-e).toNat
  if neg then -withExp else withExp

/-- Parse a JSON number per the RFC 8259 grammar: optional minus, `0` or a
nonzero-led digit run, optional fraction, optional exponent. -/
def parseNum (cs : List Char) : Option (ℚ × List Char) :=
  let (neg, cs1) :=
    match cs with
    | '-' :: rest => (true, rest)
    | _ => (false, cs)
  match cs1 with
  | [] => none
  | c :: cs2 =>
    if c = '0' then
      match parseFrac cs2 with
      | none => none
      | some (fds, cs3) =>
        match parseExp cs3 with
        | none => none
        | some (e, cs4) => some (mkJsonNum neg ['0'] fds e, cs4)
    else if isDigitCh c then
      let (ds, csr) := takeDigits cs2
      match parseFrac csr with
      | none => none
      | some (fds, cs3) =>
        match parseExp cs3 with
        | none => none
        | some (e, cs4) => some (mkJsonNum neg (c :: ds) fds e, cs4)
    else none

mutual

/-- Parse one JSON value (leading whitespace already skipped).  The fuel
argument bounds the recursion; `parseJson` supplies enough for any input. -/
def parseVal : Nat → List Char → Option (Json × List Char)
  | 0, _ => none
  | _ + 1, [] => none
  | fuel + 1, c :: cs =>
    if c = '{' then
      match skipWs cs with
      | '}' :: rest => some (.obj [], rest)
      | cs1 => parseFields fuel cs1 []
    else if c = '[' then
      match skipWs cs with
      | ']' :: rest => some (.arr [], rest)
      | cs1 => parseElems fuel cs1 []
    else if c = '"' then
      match parseStrAux [] cs with
      | some (s, rest) => some (.str s, rest)
      | none => none
    else if c = 't' then
      match cs with
      | 'r' :: 'u' :: 'e' :: rest => some (.bool true, rest)
      | _ => none
    else if c = 'f' then
      match cs with
      | 'a' :: 'l' :: 's' :: 'e' :: rest => some (.bool false, rest)
      | _ => none
    else if c = 'n' then
      match cs with
      | 'u' :: 'l' :: 'l' :: rest => some (.null, rest)
      | _ => none
    else
      match parseNum (c :: cs) with
      | some (q, rest) => some (.num q, rest)
      | none => none

/-- Parse the remaining elements of a non-empty JSON array. -/
def parseElems : Nat → List Char → List Json → Option (Json × List Char)
  | 0, _, _ => none
  | fuel + 1, cs, acc =>
    match parseVal fuel (skipWs cs) with
    | none => none
    | some (v, rest) =>
      match skipWs rest with
      | ',' :: rest2 => parseElems fuel rest2 (v :: acc)
      | ']' :: rest2 => some (.arr (v :: acc).reverse, rest2)
      | _ => none

/-- Parse the remaining fields of a non-empty JSON object. -/
def parseFields : Nat → List Char → List (String × Json) → Option (Json × List Char)
  | 0, _, _ => none
  | fuel + 1, cs, acc =>
    match skipWs cs with
    | '"' :: cs1 =>
      match parseStrAux [] cs1 with
      | none => none
      | some (k, rest) =>
        match skipWs rest with
        | ':' :: rest2 =>
          match parseVal fuel (skipWs rest2) with
          | none => none
          | some (v, rest3) =>
            match skipWs rest3 with
            | ',' :: rest4 => parseFields fuel rest4 ((k, v) :: acc)
            | '}' :: rest4 => some (.obj ((k, v) :: acc).reverse, rest4)
            | _ => none
        | _ => none
    | _ => none

end

/-- The model of `JSON.parse`: parse one value surrounded by optional
whitespace; any leftover input is a syntax error (`none`). -/
def parseJson (s : String) : Option Json :=
  match parseVal (s.toList.length + 1) (skipWs s.toList) with
  | some (j, rest) => if skipWs rest = [] then some j else none
  | none => none

/-! ### Schema validation (`ItemsSchema.parse`, `src/server.js` lines 52-60 and 149-154) -/

/-- An item as validated by the zod schema: string `label`, number
`confidence`, string `canonical` (`RawModelItem` after validation). -/
structure RawItem : Type where
  label : String
  confidence : ℚ
  canonical : String
deriving DecidableEq

/-- JS object field access: when a JSON text repeats a key, the later binding
wins, so the lookup scans from the end. -/
def lookupField (fields : List (String × Json)) (k : String) : Option Json :=
  match fields.reverse.find? (fun p => decide (p.1 = k)) with
  | some p => some p.2
  | none => none

/-- Validation of one element of `items` against
`z.object({ label: z.string(), confidence: z.number(), canonical: z.string() })`.
zod objects strip unknown keys rather than rejecting them, and reject any
non-object (including arrays and null). -/
def validateItem (j : Json) : Option RawItem :=
  match j with
  | .obj fs =>
    match lookupField fs "label", lookupField fs "confidence", lookupField fs "canonical" with
    | some (.str l), some (.num c), some (.str cn) => some ⟨l, c, cn⟩
    | _, _, _ => none
  | _ => none

/-- Element-wise validation of the `items` array (`z.array`): every element
must validate, otherwise the whole parse fails. -/
def validateItemList : List Json → Option (List RawItem)
  | [] => some []
  | e :: es =>
    match validateItem e, validateItemList es with
    | some it, some its => some (it :: its)
    | _, _ => none

/-- `ItemsSchema.parse`: the decoded value must be an object whose `items`
field is an array of valid items.  Extra top-level keys are stripped, not
rejected (zod default object mode). -/
def validateItems (j : Json) : Option (List RawItem) :=
  match j with
  | .obj fs =>
    match lookupField fs "items" with
    | some (.arr es) => validateItemList es
    | _ => none
  | _ => none

/-! ### The sanitize / filter / canonicalize / rank pipeline
(`src/server.js` lines 156-173) -/

/-- A normalized output item (`RecognizedItem` of the data model). -/
structure RecognizedItem : Type where
  label : String
  confidence : ℚ
  canonical : String
deriving DecidableEq

/-- Characters removed by JS `String.prototype.trim`: ASCII whitespace,
vertical tab, form feed, no-break space and BOM (further Unicode space
separators are omitted; the pipeline's constants are ASCII). -/
def jsWsChar (c : Char) : Bool :=
  c = ' ' || c = '\t' || c = '\n' || c = '\r' || c = '\x0b' || c = '\x0c' ||
    c = '\u00A0' || c = '\uFEFF'

/-- Uppercase-to-lowercase table for the ASCII range. -/
def lowerPairs : List (Char × Char) :=
  [('A', 'a'), ('B', 'b'), ('C', 'c'), ('D', 'd'), ('E', 'e'), ('F', 'f'),
   ('G', 'g'), ('H', 'h'), ('I', 'i'), ('J', 'j'), ('K', 'k'), ('L', 'l'),
   ('M', 'm'), ('N', 'n'), ('O', 'o'), ('P', 'p'), ('Q', 'q'), ('R', 'r'),
   ('S', 's'), ('T', 't'), ('U', 'u'), ('V', 'v'), ('W', 'w'), ('X', 'x'),
   ('Y', 'y'), ('Z', 'z')]

/-- JS `toLowerCase` on the ASCII range, written as an explicit table. -/
def lowerChar (c : Char) : Char :=
  match lowerPairs.find? (fun p => p.1 == c) with
  | some p => p.2
  | none => c

/-- Remove leading and trailing whitespace. -/
def trimList (cs : List Char) : List Char :=
  ((cs.dropWhile jsWsChar).reverse.dropWhile jsWsChar).reverse

/-- `String(x).trim().toLowerCase()` as applied by the sanitize step (on a
value already validated to be a string, `String(x || "")` is the identity). -/
def jsSan (s : String) : String := ⟨(trimList s.toList).map lowerChar⟩

/-- `Math.max(0, Math.min(1, q))`, written with explicit comparisons so that
it evaluates by kernel reduction. -/
def clamp01 (q : ℚ) : ℚ :=
  let m := if q ≤ 1 then q else 1
  if m ≤ 0 then 0 else m

/-- JS `Number(c) || 0` on a validated number: the only falsy numbers are `0`
and `-0`, so this is numerically the identity. -/
def jsOrZero (q : ℚ) : ℚ := if q = 0 then 0 else q

/-- The sanitize step (`.map` at lines 158-162). -/
def sanitizeItem (it : RawItem) : RecognizedItem :=
  { label := jsSan it.label
    confidence := clamp01 (jsOrZero it.confidence)
    canonical := jsSan it.canonical }

/-- The banned vague terms (`BannedTermSet`, line 156). -/
def bannedTerms : List String :=
  ["snack", "food", "meal", "dish", "appetizer", "plate", "junk food"]

/-- The filter predicate (line 163): keep an item iff its sanitized label is
nonempty and not banned. -/
def keepItem (it : RecognizedItem) : Bool :=
  decide (0 < it.label.length) && !(bannedTerms.contains it.label)

/-- Boolean test that `n` occurs at the start of `l`. -/
def isPrefixL : List Char → List Char → Bool
  | [], _ => true
  | _ :: _, [] => false
  | a :: as, b :: bs => if a = b then isPrefixL as bs else false

/-- Boolean test that `n` occurs contiguously anywhere in `l`. -/
def isSubL (n : List Char) : List Char → Bool
  | [] => n.isEmpty
  | b :: bs => isPrefixL n (b :: bs) || isSubL n bs

/-- Substring containment of strings, the semantics of an alternation-only
regex `test`. -/
def containsSub (needle s : String) : Bool := isSubL needle.toList s.toList

/-- The pasta-shape alternatives of the first canonicalization rule (line 167). -/
def pastaWords : List String :=
  ["spaghetti", "penne", "fusilli", "farfalle", "macaroni", "rigatoni",
   "tagliatelle", "linguine", "fettuccine", "pasta", "noodle"]

/-- `/(spaghetti|penne|...|pasta|noodle)/.test(l)`. -/
def pastaMatch (l : String) : Bool := pastaWords.any (fun w => containsSub w l)

/-- `/(fries|french\s*fries)/.test(l)`: any match of the second alternative
contains `fries`, so the regex matches exactly when `l` contains `fries`. -/
def friesMatch (l : String) : Bool := containsSub "fries" l

/-- The alternatives of the third canonicalization rule (line 169). -/
def orangeWords : List String := ["orange", "mandarin", "tangerine"]

/-- `/(orange|mandarin|tangerine)/.test(l)`. -/
def orangeMatch (l : String) : Bool := orangeWords.any (fun w => containsSub w l)

/-- The canonicalize step (lines 164-171): start from `canonical || label`,
then let each matching rule overwrite the value in source order, so a later
matching rule wins. -/
def canonicalizeItem (it : RecognizedItem) : RecognizedItem :=
  let l := it.label
  let canon0 := if it.canonical = "" then l else it.canonical
  let canon1 := if pastaMatch l then "pasta" else canon0
  let canon2 := if friesMatch l then "french fries" else canon1
  let canon3 := if orangeMatch l then "orange" else canon2
  { it with canonical := canon3 }

/-- The sort order of `(a, b) => b.confidence - a.confidence`: greater
confidence first. -/
def confGe (a b : RecognizedItem) : Prop := b.confidence ≤ a.confidence

instance : DecidableRel confGe := fun _ _ => inferInstanceAs (Decidable (_ ≤ _))

instance : IsTotal RecognizedItem confGe :=
  ⟨fun a b => le_total b.confidence a.confidence⟩

instance : IsTrans RecognizedItem confGe :=
  ⟨fun _ _ _ hab hbc => le_trans hbc hab⟩

/-- `Array.prototype.sort` is stable; with the descending comparator it is
modelled by stable insertion sort under `confGe`. -/
def rankSort (l : List RecognizedItem) : List RecognizedItem :=
  List.insertionSort confGe l

/-- The pipeline up to and including canonicalization. -/
def stage3 (items : List RawItem) : List RecognizedItem :=
  ((items.map sanitizeItem).filter keepItem).map canonicalizeItem

/-- The whole post-validation pipeline: sanitize, filter, canonicalize, sort
descending, keep the first 5 (`.slice(0, 5)`). -/
def pipeline (items : List RawItem) : List RecognizedItem :=
  (rankSort (stage3 items)).take 5

/-! ### The normalizer -/

/-- Outcome of normalization: a parse failure carrying a truncated echo of the
text (`res.status(502).json({error: "parse-failed", text: textOut.slice(0, 400)})`),
a schema failure carrying nothing (`{error: "schema-failed"}`), or the ranked
item list. -/
inductive NormResult : Type where
  | parseError (textPrefix : String) : NormResult
  | schemaError : NormResult
  | ok (items : List RecognizedItem) : NormResult
deriving DecidableEq

/-- Normalization of an already-decoded JSON value: schema validation followed
by the pipeline. -/
def normalizeJson (j : Json) : NormResult :=
  match validateItems j with
  | none => .schemaError
  | some items => .ok (pipeline items)

/-- The normalizer: `JSON.parse`, then schema validation, then the pipeline
(`src/server.js` lines 142-175). -/
def normalize (rawText : String) : NormResult :=
  match parseJson rawText with
  | none => .parseError ⟨rawText.toList.take 400⟩
  | some j => normalizeJson j

/-- Re-wrapping of an output item as a JSON value, for the idempotence
property (`{items: output}` re-fed through the normalizer). -/
def itemToJson (it : RecognizedItem) : Json :=
  .obj [("label", .str it.label), ("confidence", .num it.confidence),
        ("canonical", .str it.canonical)]

/-- Re-wrapping of a whole output list as `{items: output}`. -/
def wrapItems (l : List RecognizedItem) : Json :=
  .obj [("items", .arr (l.map itemToJson))]

/-- The raw-item view of an already-normalized item, as the schema validator
recovers it from `wrapItems`. -/
def toRaw (it : RecognizedItem) : RawItem :=
  ⟨it.label, it.confidence, it.canonical⟩

/-! ### Elementary properties of the pipeline steps -/

theorem canonicalizeItem_label (it : RecognizedItem) :
    (canonicalizeItem it).label = it.label := rfl

theorem canonicalizeItem_confidence (it : RecognizedItem) :
    (canonicalizeItem it).confidence = it.confidence := rfl

theorem sanitizeItem_label (it : RawItem) :
    (sanitizeItem it).label = jsSan it.label := rfl

/-- The sequential overwrite of the three rules, read back as a priority
choice: the orange rule wins over the fries rule, which wins over the pasta
rule, which wins over the supplied canonical value. -/
theorem canonicalizeItem_canonical (it : RecognizedItem) :
    (canonicalizeItem it).canonical =
      if orangeMatch it.label then "orange"
      else if friesMatch it.label then "french fries"
      else if pastaMatch it.label then "pasta"
      else if it.canonical = "" then it.label else it.canonical := by
  unfold canonicalizeItem
  by_cases ho : orangeMatch it.label <;> by_cases hf : friesMatch it.label <;>
    by_cases hp : pastaMatch it.label <;> simp [ho, hf, hp]

theorem jsOrZero_eq (q : ℚ) : jsOrZero q = q := by
  unfold jsOrZero; split <;> simp_all

theorem clamp01_nonneg (q : ℚ) : 0 ≤ clamp01 q := by
  unfold clamp01; dsimp only; split_ifs <;> linarith

theorem clamp01_le_one (q : ℚ) : clamp01 q ≤ 1 := by
  unfold clamp01; dsimp only; split_ifs <;> linarith

theorem clamp01_of_mem_Icc (q : ℚ) (h0 : 0 ≤ q) (h1 : q ≤ 1) : clamp01 q = q := by
  unfold clamp01; dsimp only; split_ifs <;> linarith

theorem clamp01_idem (q : ℚ) : clamp01 (clamp01 q) = clamp01 q :=
  clamp01_of_mem_Icc _ (clamp01_nonneg q) (clamp01_le_one q)

theorem sanitizeItem_confidence (it : RawItem) :
    (sanitizeItem it).confidence = clamp01 it.confidence := by
  unfold sanitizeItem; rw [jsOrZero_eq]

/-- The filter keeps exactly the items with a nonempty, non-banned label. -/
theorem keepItem_iff (it : RecognizedItem) :
    keepItem it = true ↔ it.label ≠ "" ∧ it.label ∉ bannedTerms := by
  unfold keepItem
  rw [Bool.and_eq_true, decide_eq_true_iff, Bool.not_eq_true',
    ← Bool.not_eq_true, List.elem_iff]
  constructor
  · rintro ⟨hl, hb⟩
    refine ⟨fun he => ?_, hb⟩
    rw [he] at hl
    exact absurd hl (by decide)
  · rintro ⟨hl, hb⟩
    refine ⟨?_, hb⟩
    rcases Nat.eq_zero_or_pos it.label.length with h | h
    · exact absurd (String.ext (List.length_eq_zero.mp h)) hl
    · exact h

/-! ### Substring semantics of the regex tests -/

theorem isPrefixL_iff (n : List Char) : ∀ l, isPrefixL n l = true ↔ ∃ t, l = n ++ t := by
  induction n with
  | nil =>
    intro l
    constructor
    · intro _; exact ⟨l, rfl⟩
    · intro _; rfl
  | cons a as ih =>
    intro l
    cases l with
    | nil =>
      simp only [isPrefixL]
      constructor
      · intro h; cases h
      · rintro ⟨t, ht⟩; cases ht
    | cons b bs =>
      constructor
      · intro h
        by_cases hab : a = b
        · subst hab
          rw [isPrefixL, if_pos rfl] at h
          rcases (ih bs).mp h with ⟨t, rfl⟩
          exact ⟨t, rfl⟩
        · rw [isPrefixL, if_neg hab] at h
          cases h
      · rintro ⟨t, ht⟩
        injection ht with h1 h2
        subst h1
        rw [isPrefixL, if_pos rfl]
        exact (ih bs).mpr ⟨t, h2⟩

theorem isSubL_iff (n : List Char) : ∀ l, isSubL n l = true ↔ ∃ u v, l = u ++ n ++ v := by
  intro l
  induction l with
  | nil =>
    simp only [isSubL, List.isEmpty_iff]
    constructor
    · rintro rfl; exact ⟨[], [], rfl⟩
    · rintro ⟨u, v, huv⟩
      rcases List.append_eq_nil.mp huv.symm with ⟨h1, -⟩
      exact (List.append_eq_nil.mp h1).2
  | cons b bs ih =>
    simp only [isSubL, Bool.or_eq_true, isPrefixL_iff, ih]
    constructor
    · rintro (⟨t, ht⟩ | ⟨u, v, huv⟩)
      · exact ⟨[], t, by simpa using ht⟩
      · exact ⟨b :: u, v, by simp [huv]⟩
    · rintro ⟨u, v, huv⟩
      cases u with
      | nil => exact Or.inl ⟨v, by simpa using huv⟩
      | cons x xs =>
        injection huv with h1 h2
        exact Or.inr ⟨xs, v, h2⟩

/-- The substring reading of `containsSub`, at the string level. -/
theorem containsSub_iff (n s : String) :
    containsSub n s = true ↔ ∃ u v, s.toList = u ++ n.toList ++ v :=
  isSubL_iff n.toList s.toList

/-! ### Stability and order of the ranking step -/

theorem filter_orderedInsert (q : ℚ) (x : RecognizedItem) :
    ∀ l : List RecognizedItem,
      (List.orderedInsert confGe x l).filter (fun y => decide (y.confidence = q)) =
        if x.confidence = q then
          x :: l.filter (fun y => decide (y.confidence = q))
        else l.filter (fun y => decide (y.confidence = q)) := by
  intro l
  induction l with
  | nil =>
    simp only [List.orderedInsert, List.filter]
    split_ifs with h <;> simp [h]
  | cons b bs ih =>
    by_cases hxb : confGe x b
    · rw [List.orderedInsert_of_le _ _ hxb]
      by_cases hx : x.confidence = q <;> simp [List.filter_cons, hx]
    · have hlt : b.confidence ≠ q ∨ x.confidence ≠ q := by
        by_contra hc
        push_neg at hc
        exact hxb (hc.1.trans hc.2.symm).le
      simp only [List.orderedInsert, if_neg hxb]
      rw [List.filter_cons, List.filter_cons]
      by_cases hb : b.confidence = q
      · rcases hlt with h | h
        · exact absurd hb h
        · simp [hb, ih, h]
      · by_cases hx : x.confidence = q <;> simp [hb, ih, hx]

/-- Stability of the ranking: for every confidence value, the items having
exactly that confidence appear in the sorted list in their original order. -/
theorem filter_rankSort (q : ℚ) :
    ∀ l : List RecognizedItem,
      (rankSort l).filter (fun y => decide (y.confidence = q)) =
        l.filter (fun y => decide (y.confidence = q)) := by
  intro l
  induction l with
  | nil => rfl
  | cons b bs ih =>
    show (List.orderedInsert confGe b (rankSort bs)).filter _ = _
    rw [filter_orderedInsert, List.filter_cons]
    by_cases hb : b.confidence = q <;> simp [hb, ih]

theorem rankSort_perm (l : List RecognizedItem) : (rankSort l).Perm l :=
  List.perm_insertionSort confGe l

theorem rankSort_sorted (l : List RecognizedItem) : (rankSort l).Pairwise confGe :=
  List.sorted_insertionSort confGe l

/-! ### Membership characterization of the pipeline output -/

/-- Every output item arises from an input item that survived the filter, via
sanitize and canonicalize. -/
theorem mem_pipeline (items : List RawItem) (x : RecognizedItem)
    (hx : x ∈ pipeline items) :
    ∃ raw ∈ items, keepItem (sanitizeItem raw) = true ∧
      x = canonicalizeItem (sanitizeItem raw) := by
  have h1 : x ∈ rankSort (stage3 items) := (List.take_sublist 5 _).mem hx
  have h2 : x ∈ stage3 items := (rankSort_perm _).mem_iff.mp h1
  unfold stage3 at h2
  rcases List.mem_map.mp h2 with ⟨y, hy, rfl⟩
  rcases List.mem_filter.mp hy with ⟨hy1, hy2⟩
  rcases List.mem_map.mp hy1 with ⟨raw, hraw, rfl⟩
  exact ⟨raw, hraw, hy2, rfl⟩

/-! ### Idempotence of the sanitizing string transformation -/

theorem lowerChar_ws (c : Char) : jsWsChar (lowerChar c) = jsWsChar c := by
  unfold lowerChar
  cases hf : lowerPairs.find? (fun p => p.1 == c) with
  | none => rfl
  | some p =>
    have hmem := List.mem_of_find?_eq_some hf
    have hpc : p.1 = c := by simpa using List.find?_some hf
    simp only [lowerPairs, List.mem_cons, List.not_mem_nil, or_false] at hmem
    rcases hmem with rfl | rfl | rfl | rfl | rfl | rfl | rfl | rfl | rfl | rfl |
      rfl | rfl | rfl | rfl | rfl | rfl | rfl | rfl | rfl | rfl | rfl | rfl |
      rfl | rfl | rfl | rfl <;> cases hpc <;> decide

theorem lowerChar_idem (c : Char) : lowerChar (lowerChar c) = lowerChar c := by
  cases hf : lowerPairs.find? (fun p => p.1 == c) with
  | none =>
    have h1 : lowerChar c = c := by unfold lowerChar; rw [hf]
    rw [h1]; exact h1
  | some p =>
    have hmem := List.mem_of_find?_eq_some hf
    have h1 : lowerChar c = p.2 := by unfold lowerChar; rw [hf]
    rw [h1]
    simp only [lowerPairs, List.mem_cons, List.not_mem_nil, or_false] at hmem
    rcases hmem with rfl | rfl | rfl | rfl | rfl | rfl | rfl | rfl | rfl | rfl |
      rfl | rfl | rfl | rfl | rfl | rfl | rfl | rfl | rfl | rfl | rfl | rfl |
      rfl | rfl | rfl | rfl <;> decide

theorem dropWhile_idem (p : Char → Bool) (l : List Char) :
    (l.dropWhile p).dropWhile p = l.dropWhile p := by
  induction l with
  | nil => rfl
  | cons c cs ih =>
    by_cases h : p c
    · simp [List.dropWhile_cons, h, ih]
    · simp [List.dropWhile_cons, h]

theorem dropWhile_head? (p : Char → Bool) (l : List Char) (c : Char)
    (h : (l.dropWhile p).head? = some c) : p c = false := by
  induction l with
  | nil => cases h
  | cons b bs ih =>
    by_cases hb : p b
    · rw [List.dropWhile_cons, if_pos hb] at h
      exact ih h
    · rw [List.dropWhile_cons, if_neg hb, List.head?_cons] at h
      cases h
      exact Bool.not_eq_true _ ▸ (by simpa using hb)

theorem dropWhile_getLast? (p : Char → Bool) (l : List Char)
    (h : l.dropWhile p ≠ []) : (l.dropWhile p).getLast? = l.getLast? := by
  induction l with
  | nil => rfl
  | cons b bs ih =>
    by_cases hb : p b
    · rw [List.dropWhile_cons, if_pos hb] at h ⊢
      have hbs : bs ≠ [] := by
        rintro rfl
        exact h rfl
      rw [ih h, List.getLast?_cons]
      cases hg : bs.getLast? with
      | none => exact absurd (List.getLast?_eq_none_iff.mp hg) hbs
      | some x => simp
    · rw [List.dropWhile_cons, if_neg hb]

theorem dropWhile_of_head? (p : Char → Bool) (l : List Char)
    (h : ∀ c, l.head? = some c → p c = false) : l.dropWhile p = l := by
  cases l with
  | nil => rfl
  | cons b bs =>
    rw [List.dropWhile_cons, if_neg]
    rw [Bool.not_eq_true]
    exact h b rfl

/-- The trimmed list has no leading whitespace. -/
theorem trimList_fix_lead (l : List Char) :
    (trimList l).dropWhile jsWsChar = trimList l := by
  unfold trimList
  set y := (l.dropWhile jsWsChar).reverse with hy
  set z := y.dropWhile jsWsChar with hz
  apply dropWhile_of_head?
  intro c hc
  rw [List.head?_reverse] at hc
  by_cases hznil : z = []
  · rw [hznil] at hc; cases hc
  · rw [hz, dropWhile_getLast? _ _ (hz ▸ hznil), hy, List.getLast?_reverse] at hc
    exact dropWhile_head? jsWsChar l c hc

/-- The trimmed list has no trailing whitespace. -/
theorem trimList_fix_trail (l : List Char) :
    (trimList l).reverse.dropWhile jsWsChar = (trimList l).reverse := by
  unfold trimList
  rw [List.reverse_reverse]
  exact dropWhile_idem _ _

theorem trimList_idem (l : List Char) : trimList (trimList l) = trimList l := by
  have h : trimList (trimList l) =
      (((trimList l).dropWhile jsWsChar).reverse.dropWhile jsWsChar).reverse := rfl
  rw [h, trimList_fix_lead, trimList_fix_trail, List.reverse_reverse]

/-- Trimming commutes away over an already-trimmed, lowercased list. -/
theorem trimList_map_lower (l : List Char) :
    trimList ((trimList l).map lowerChar) = (trimList l).map lowerChar := by
  have hcomp : (jsWsChar ∘ lowerChar) = jsWsChar := funext fun c => lowerChar_ws c
  have h2 : ((trimList l).map lowerChar).dropWhile jsWsChar =
      (trimList l).map lowerChar := by
    rw [List.dropWhile_map, hcomp, trimList_fix_lead]
  have hrev : ((trimList l).map lowerChar).reverse =
      ((trimList l).reverse).map lowerChar := by
    simp
  have h3 : (((trimList l).map lowerChar).reverse).dropWhile jsWsChar =
      ((trimList l).map lowerChar).reverse := by
    rw [hrev, List.dropWhile_map, hcomp, trimList_fix_trail]
  have h : trimList ((trimList l).map lowerChar) =
      ((((trimList l).map lowerChar).dropWhile jsWsChar).reverse.dropWhile
        jsWsChar).reverse := rfl
  rw [h, h2, h3, List.reverse_reverse]

theorem jsSan_idem (s : String) : jsSan (jsSan s) = jsSan s := by
  unfold jsSan
  have hl : (String.mk ((trimList s.toList).map lowerChar)).toList =
      (trimList s.toList).map lowerChar := rfl
  have hfun : lowerChar ∘ lowerChar = lowerChar := funext fun c => lowerChar_idem c
  rw [hl, trimList_map_lower, List.map_map, hfun]

/-! ### The output invariant and idempotence of the pipeline -/

theorem recognizedItem_eq (a b : RecognizedItem) (h1 : a.label = b.label)
    (h2 : a.confidence = b.confidence) (h3 : a.canonical = b.canonical) : a = b := by
  cases a; cases b
  cases h1; cases h2; cases h3
  rfl

theorem list_map_id_of (f : RecognizedItem → RecognizedItem) :
    ∀ l : List RecognizedItem, (∀ x ∈ l, f x = x) → l.map f = l := by
  intro l
  induction l with
  | nil => intro _; rfl
  | cons x xs ih =>
    intro h
    rw [List.map_cons, h x (List.mem_cons_self x xs),
      ih (fun y hy => h y (List.mem_cons_of_mem x hy))]

/-- Canonicalization does not change an already-canonicalized item whose label
is nonempty. -/
theorem canonicalizeItem_idem (x : RecognizedItem) (hl : x.label ≠ "") :
    canonicalizeItem (canonicalizeItem x) = canonicalizeItem x := by
  refine recognizedItem_eq _ _ rfl rfl ?_
  rw [canonicalizeItem_canonical, canonicalizeItem_canonical, canonicalizeItem_label]
  by_cases ho : orangeMatch x.label
  · simp [ho]
  · by_cases hf : friesMatch x.label
    · simp [ho, hf]
    · by_cases hp : pastaMatch x.label
      · simp [ho, hf, hp]
      · by_cases hc : x.canonical = "" <;> simp [ho, hf, hp, hc, hl]

/-- Well-formedness of an output item: all sanitizing transformations fix it. -/
def OutWF (x : RecognizedItem) : Prop :=
  jsSan x.label = x.label ∧ x.label ≠ "" ∧ x.label ∉ bannedTerms ∧
    jsSan x.canonical = x.canonical ∧ clamp01 x.confidence = x.confidence ∧
    canonicalizeItem x = x

theorem outWF_keep (x : RecognizedItem) (h : OutWF x) : keepItem x = true :=
  (keepItem_iff x).mpr ⟨h.2.1, h.2.2.1⟩

/-- A sanitized item that survives the filter becomes well formed after
canonicalization. -/
theorem canonicalize_sanitize_wf (raw : RawItem)
    (hkeep : keepItem (sanitizeItem raw) = true) :
    OutWF (canonicalizeItem (sanitizeItem raw)) := by
  obtain ⟨hne, hban⟩ := (keepItem_iff _).mp hkeep
  have hlab : (canonicalizeItem (sanitizeItem raw)).label = jsSan raw.label := rfl
  refine ⟨?_, ?_, ?_, ?_, ?_, ?_⟩
  · rw [hlab]; exact jsSan_idem raw.label
  · rw [hlab]; exact hne
  · rw [hlab]; exact hban
  · rw [canonicalizeItem_canonical]
    by_cases ho : orangeMatch (sanitizeItem raw).label
    · simp [ho]; decide
    · by_cases hf : friesMatch (sanitizeItem raw).label
      · simp [ho, hf]; decide
      · by_cases hp : pastaMatch (sanitizeItem raw).label
        · simp [ho, hf, hp]; decide
        · by_cases hc : (sanitizeItem raw).canonical = "" <;>
            simp only [ho, hf, hp, hc, if_true, if_false, if_neg, if_pos]
          · exact jsSan_idem raw.label
          · exact jsSan_idem raw.canonical
  · rw [canonicalizeItem_confidence]
    show clamp01 (sanitizeItem raw).confidence = _
    rw [sanitizeItem_confidence raw, clamp01_idem]
  · exact canonicalizeItem_idem _ hne

theorem sanitizeItem_toRaw (x : RecognizedItem) (h : OutWF x) :
    sanitizeItem (toRaw x) = x := by
  refine recognizedItem_eq _ _ ?_ ?_ ?_
  · show jsSan x.label = x.label; exact h.1
  · show clamp01 (jsOrZero x.confidence) = x.confidence
    rw [jsOrZero_eq]; exact h.2.2.2.2.1
  · show jsSan x.canonical = x.canonical; exact h.2.2.2.1

/-- The pipeline is the identity on a well-formed, sorted list of at most 5
items that is re-fed as raw input. -/
theorem pipeline_fixed (L : List RecognizedItem) (hwf : ∀ x ∈ L, OutWF x)
    (hsort : L.Pairwise confGe) (hlen : L.length ≤ 5) :
    pipeline (L.map toRaw) = L := by
  unfold pipeline stage3
  have h1 : (L.map toRaw).map sanitizeItem = L := by
    rw [List.map_map]
    exact list_map_id_of _ L (fun x hx => sanitizeItem_toRaw x (hwf x hx))
  rw [h1]
  have h2 : L.filter keepItem = L :=
    List.filter_eq_self.mpr (fun x hx => outWF_keep x (hwf x hx))
  rw [h2]
  have h3 : L.map canonicalizeItem = L :=
    list_map_id_of _ L (fun x hx => (hwf x hx).2.2.2.2.2)
  rw [h3]
  have h4 : rankSort L = L := List.Sorted.insertionSort_eq hsort
  rw [h4]
  exact List.take_of_length_le hlen

theorem validateItem_itemToJson (x : RecognizedItem) :
    validateItem (itemToJson x) = some (toRaw x) := rfl

theorem validateItems_wrapItems (L : List RecognizedItem) :
    validateItems (wrapItems L) = some (L.map toRaw) := by
  show validateItemList (L.map itemToJson) = some (L.map toRaw)
  induction L with
  | nil => rfl
  | cons x xs ih =>
    show validateItemList (itemToJson x :: xs.map itemToJson) = _
    unfold validateItemList
    rw [validateItem_itemToJson, ih]
    rfl

/-! ### Decomposition of the normalizer -/

theorem normalize_ok_elim (s : String) (L : List RecognizedItem)
    (h : normalize s = .ok L) : ∃ items : List RawItem, L = pipeline items := by
  unfold normalize at h
  split at h
  · cases h
  · unfold normalizeJson at h
    split at h
    · cases h
    · injection h with h
      exact ⟨_, h.symm⟩

theorem pipeline_length_le (items : List RawItem) : (pipeline items).length ≤ 5 := by
  unfold pipeline
  rw [List.length_take]
  exact min_le_left _ _

theorem pipeline_sorted (items : List RawItem) : (pipeline items).Pairwise confGe :=
  List.Pairwise.sublist (List.take_sublist 5 _) (rankSort_sorted _)

theorem pipeline_wf (items : List RawItem) : ∀ x ∈ pipeline items, OutWF x := by
  intro x hx
  rcases mem_pipeline items x hx with ⟨raw, -, hkeep, rfl⟩
  exact canonicalize_sanitize_wf raw hkeep

/-! ### Sample inputs from the specification's testable properties -/

def sampleSpaghetti : String :=
  "\x7b\"items\":[\x7b\"label\":\"Spaghetti\",\"confidence\":1.5,\"canonical\":\"\"\x7d]\x7d"

def sampleSnack : String :=
  "\x7b\"items\":[\x7b\"label\":\"SNACK\",\"confidence\":0.9,\"canonical\":\"snack\"\x7d]\x7d"

def sampleEmpty : String := "\x7b\"items\":[]\x7d"

def sampleFoo : String := "\x7b\"items\":[\x7b\"foo\":1\x7d]\x7d"

def sampleExtra : String := "\x7b\"items\":[],\"extra\":1\x7d"

def sampleNotJson : String := "\x7bnot json"

def sampleApple : String :=
  "\x7b\"items\":[\x7b\"label\":\"apple\",\"confidence\":0,\"canonical\":\"\"\x7d]\x7d"

def spagItem : RecognizedItem := ⟨"spaghetti", 1, "pasta"⟩

def appleItem : RecognizedItem := ⟨"apple", 0, "apple"⟩

/-! ### JavaScript number semantics of the confidence sanitization

The main development models JSON numbers by exact rationals, which is faithful
for every comparison and clamp the pipeline performs on finite doubles.  One
reachable behaviour escapes that model: a numeric literal whose magnitude is
at or beyond the IEEE-754 double rounding boundary `2^1024 - 2^970` is decoded
by `JSON.parse` as `Infinity` (or `-Infinity`), `z.number()` without
`.finite()` accepts it, and the sanitize expression
`Math.max(0, Math.min(1, Number(c) || 0))` then runs on a non-finite value:
the falsy-coalescing `|| 0` replaces only `NaN`, `0` and `-0`, so an infinity
survives it and is clamped (to 1 or 0) rather than defaulted to 0.  The
following definitions model that arithmetic exactly. -/

/-- A JavaScript number: a finite double (modelled exactly by a rational, as
in the rest of the development), an infinity, or `NaN`. -/
inductive JsNum : Type where
  | fin (q : ℚ) : JsNum
  | posInf : JsNum
  | negInf : JsNum
  | nan : JsNum
deriving DecidableEq

/-- JS falsiness of a number: `0`, `-0` and `NaN` are falsy; infinities are
truthy. -/
def jsFalsy : JsNum → Bool
  | .fin q => decide (q = 0)
  | .posInf => false
  | .negInf => false
  | .nan => true

/-- `c || 0` on a JS number. -/
def jsOrZeroN (x : JsNum) : JsNum := if jsFalsy x then .fin 0 else x

/-- `Math.min(1, x)` (no `NaN` operand arises after `|| 0`, but `NaN`
propagates as in JS). -/
def jsMin1 : JsNum → JsNum
  | .fin q => .fin (if q ≤ 1 then q else 1)
  | .posInf => .fin 1
  | .negInf => .negInf
  | .nan => .nan

/-- `Math.max(0, x)`. -/
def jsMax0 : JsNum → JsNum
  | .fin q => .fin (if q ≤ 0 then 0 else q)
  | .posInf => .posInf
  | .negInf => .fin 0
  | .nan => .nan

/-- The confidence computation of the sanitize step (`server.js` line 161),
`Math.max(0, Math.min(1, Number(c) || 0))`, on a JS number; `Number` is the
identity on values that passed `z.number()`. -/
def sanitizeConfN (x : JsNum) : JsNum := jsMax0 (jsMin1 (jsOrZeroN x))

/-- The finite value of a JS number (0 for non-finite values). -/
def finPart : JsNum → ℚ
  | .fin q => q
  | _ => 0

/-- The smallest magnitude at which a JSON numeric literal rounds to an IEEE
double infinity: the midpoint `2^1024 - 2^970` above the largest finite
double `(2^53 - 1) * 2^971`; round-to-nearest-even sends the midpoint and
everything beyond it to `Infinity`. -/
def dblOverflow : ℚ := ((2 ^ 1024 - 2 ^ 970 : ℕ) : ℚ)

/-- The IEEE double denoted by a JSON numeric literal of exact value `q`: an
infinity when the magnitude reaches the overflow boundary, otherwise a finite
double (whose value the surrounding development models exactly by the
rational itself). -/
def jsonNumToDouble (q : ℚ) : JsNum :=
  if dblOverflow ≤ q then .posInf
  else if q ≤ -dblOverflow then .negInf
  else .fin q

/-- On finite numbers the JS-number sanitization agrees with the rational
model used by the pipeline. -/
theorem sanitizeConfN_fin (q : ℚ) :
    sanitizeConfN (.fin q) = .fin (clamp01 (jsOrZero q)) := by
  unfold sanitizeConfN jsOrZeroN jsFalsy jsOrZero clamp01
  by_cases h : q = 0
  · simp only [h, decide_eq_true_eq]
    norm_num [jsMin1, jsMax0]
  · simp only [h, decide_eq_true_eq, if_neg, if_false]
    rfl

/-- The sanitized confidence is always a finite number in `[0, 1]`, whatever
JS number reaches the sanitize step. -/
theorem sanitizeConfN_bounds (x : JsNum) :
    sanitizeConfN x = .fin (finPart (sanitizeConfN x)) ∧
      0 ≤ finPart (sanitizeConfN x) ∧ finPart (sanitizeConfN x) ≤ 1 := by
  cases x with
  | fin q =>
    rw [sanitizeConfN_fin]
    exact ⟨rfl, clamp01_nonneg _, clamp01_le_one _⟩
  | posInf => exact ⟨rfl, by norm_num [sanitizeConfN, jsOrZeroN, jsFalsy,
      jsMin1, jsMax0, finPart]⟩
  | negInf => exact ⟨rfl, by norm_num [sanitizeConfN, jsOrZeroN, jsFalsy,
      jsMin1, jsMax0, finPart]⟩
  | nan => exact ⟨rfl, by norm_num [sanitizeConfN, jsOrZeroN, jsFalsy,
      jsMin1, jsMax0, finPart]⟩

/-! ### The claims -/

/-- Claim C1: for every raw upstream text on which `normalize` succeeds, the
returned list has length at most 5, every item's confidence lies in `[0, 1]`,
no item's label is a member of the banned-term set, and the items are ordered
descending by confidence. -/
theorem claim1_output_invariants (s : String) (L : List RecognizedItem)
    (x : RecognizedItem) (h : normalize s = .ok L) (hx : x ∈ L) :
    L.length ≤ 5 ∧ (0 ≤ x.confidence ∧ x.confidence ≤ 1) ∧
      x.label ∉ bannedTerms ∧
      L.Pairwise (fun a b => b.confidence ≤ a.confidence) := by
  rcases normalize_ok_elim s L h with ⟨items, rfl⟩
  have hwf := pipeline_wf items x hx
  have hclamp := hwf.2.2.2.2.1
  refine ⟨pipeline_length_le items, ⟨?_, ?_⟩, hwf.2.2.1, pipeline_sorted items⟩
  · rw [← hclamp]; exact clamp01_nonneg _
  · rw [← hclamp]; exact clamp01_le_one _

/-- Witness for C1, at the spaghetti sample input. -/
theorem claim1_witness :
    ([spagItem] : List RecognizedItem).length ≤ 5 ∧
      (0 ≤ spagItem.confidence ∧ spagItem.confidence ≤ 1) ∧
      spagItem.label ∉ bannedTerms ∧
      ([spagItem] : List RecognizedItem).Pairwise
        (fun a b => b.confidence ≤ a.confidence) :=
  claim1_output_invariants sampleSpaghetti [spagItem] spagItem
    (by with_unfolding_all decide) (by decide)

/-- Claim C2: canonicalization starts from the canonical-or-label fallback and
applies the rules in order with later matches winning; the label `penne` maps
to canonical `pasta` regardless of the supplied canonical, `fries` to
`french fries`, `mandarin` to `orange`, and an unmatched label keeps its own
canonical or falls back to its label. -/
theorem claim2_canonicalization (it : RecognizedItem) (c : String) (q : ℚ) :
    ((canonicalizeItem it).canonical =
      if orangeMatch it.label then "orange"
      else if friesMatch it.label then "french fries"
      else if pastaMatch it.label then "pasta"
      else if it.canonical = "" then it.label else it.canonical) ∧
    (canonicalizeItem ⟨"penne", q, c⟩).canonical = "pasta" ∧
    (canonicalizeItem ⟨"fries", q, c⟩).canonical = "french fries" ∧
    (canonicalizeItem ⟨"mandarin", q, c⟩).canonical = "orange" ∧
    (pastaMatch it.label = false → friesMatch it.label = false →
      orangeMatch it.label = false →
      (canonicalizeItem it).canonical =
        if it.canonical = "" then it.label else it.canonical) := by
  refine ⟨canonicalizeItem_canonical it, ?_, ?_, ?_, ?_⟩
  · rw [canonicalizeItem_canonical]
    simp [show orangeMatch "penne" = false from by decide,
      show friesMatch "penne" = false from by decide,
      show pastaMatch "penne" = true from by decide]
  · rw [canonicalizeItem_canonical]
    simp [show orangeMatch "fries" = false from by decide,
      show friesMatch "fries" = true from by decide]
  · rw [canonicalizeItem_canonical]
    simp [show orangeMatch "mandarin" = true from by decide]
  · intro hp hf ho
    rw [canonicalizeItem_canonical, ho, hf, hp]
    simp

/-- Witness for C2, at a label matching no rule. -/
theorem claim2_witness :
    ((canonicalizeItem ⟨"burger", (0 : ℚ), "beef"⟩).canonical =
      if orangeMatch ("burger" : String) then "orange"
      else if friesMatch ("burger" : String) then "french fries"
      else if pastaMatch ("burger" : String) then "pasta"
      else if ("beef" : String) = "" then "burger" else "beef") ∧
    (canonicalizeItem ⟨"penne", (0 : ℚ), "x"⟩).canonical = "pasta" ∧
    (canonicalizeItem ⟨"fries", (0 : ℚ), "x"⟩).canonical = "french fries" ∧
    (canonicalizeItem ⟨"mandarin", (0 : ℚ), "x"⟩).canonical = "orange" ∧
    (pastaMatch ("burger" : String) = false →
      friesMatch ("burger" : String) = false →
      orangeMatch ("burger" : String) = false →
      (canonicalizeItem ⟨"burger", (0 : ℚ), "beef"⟩).canonical =
        if ("beef" : String) = "" then "burger" else "beef") :=
  claim2_canonicalization ⟨"burger", 0, "beef"⟩ "x" 0

theorem normalize_schemaError_iff (s : String) (j : Json)
    (hp : parseJson s = some j) :
    normalize s = .schemaError ↔ validateItems j = none := by
  unfold normalize
  rw [hp]
  show normalizeJson j = .schemaError ↔ _
  unfold normalizeJson
  cases hv : validateItems j with
  | none => simp
  | some items => simp

theorem validateItemList_eq_none_iff (es : List Json) :
    validateItemList es = none ↔
      es.any (fun e => (validateItem e).isNone) = true := by
  induction es with
  | nil => simp [validateItemList]
  | cons e es ih =>
    unfold validateItemList
    cases he : validateItem e <;> cases hes : validateItemList es <;>
      simp_all

/-- Claim C3 counterexample: an input whose decoded value has an extra
top-level key is accepted (zod strips unknown keys), not rejected with a
schema error as the claim states. -/
theorem claim3_cex :
    normalize sampleExtra = .ok [] ∧ normalize sampleExtra ≠ .schemaError := by
  refine ⟨by decide, ?_⟩
  intro h
  rw [show normalize sampleExtra = .ok [] from by decide] at h
  cases h

/-- Claim C3 as amended: extra top-level keys are stripped rather than
rejected; a schema error is produced exactly when zod validation fails, in
particular when some element of `items` lacks a string label, a number
confidence, or a string canonical; `{"items":[{"foo":1}]}` yields the schema
error, and the schema error carries no data. -/
theorem claim3_amended (s : String) (j : Json) (fs : List (String × Json))
    (es : List Json) (hp : parseJson s = some j)
    (hfs : lookupField fs "items" = some (.arr es)) :
    (normalize s = .schemaError ↔ validateItems j = none) ∧
    (validateItems (.obj fs) = none ↔
      es.any (fun e => (validateItem e).isNone) = true) ∧
    normalize sampleFoo = .schemaError ∧
    normalize sampleExtra = .ok [] := by
  refine ⟨normalize_schemaError_iff s j hp, ?_, by decide, by decide⟩
  show (match lookupField fs "items" with
    | some (.arr es) => validateItemList es
    | _ => none) = none ↔ _
  rw [hfs]
  exact validateItemList_eq_none_iff es

/-- Witness for the amended C3, at the `{"items":[{"foo":1}]}` sample. -/
theorem claim3_witness :
    (normalize sampleFoo = .schemaError ↔
      validateItems (.obj [("items",
        .arr [.obj [("foo", .num 1)]])]) = none) ∧
    (validateItems (.obj [("items", .arr [.obj [("foo", .num 1)]])]) = none ↔
      ([Json.obj [("foo", .num 1)]].any
        (fun e => (validateItem e).isNone)) = true) ∧
    normalize sampleFoo = .schemaError ∧
    normalize sampleExtra = .ok [] :=
  claim3_amended sampleFoo (.obj [("items", .arr [.obj [("foo", .num 1)]])])
    [("items", .arr [.obj [("foo", .num 1)]])] [.obj [("foo", .num 1)]]
    (by with_unfolding_all rfl) (by rfl)

/-- A schema-valid input whose confidence literal `1e999` overflows to the
IEEE double `Infinity` under `JSON.parse`. -/
def sampleBig : String :=
  "\x7b\"items\":[\x7b\"label\":\"apple\",\"confidence\":1e999,\"canonical\":\"\"\x7d]\x7d"

/-- Claim C4 counterexample: the literal `1e999` (exact value `10^999`)
denotes the double `Infinity`, which reaches the sanitize step (`z.number()`
without `.finite()` accepts it); there `Number(c) || 0` keeps it, because an
infinity is truthy, and the clamp sends it to `1` — not to the default `0`
the claim prescribes for every non-finite confidence.  The program output on
this input is confidence `1`. -/
theorem pow10_zero : pow10 0 = 1 := by norm_num [pow10]

theorem one_le_pow10 (n : Nat) : 1 ≤ pow10 n := by
  unfold pow10
  exact_mod_cast Nat.one_le_pow n 10 (by norm_num)

/-- The value of the `1e999` literal as assembled by the parser is `10^999`. -/
theorem mkJsonNum_big : mkJsonNum false ['1'] [] 999 = pow10 999 := by
  unfold mkJsonNum
  norm_num [digitsToNat, digitVal, pow10_zero]
  rw [show ('1'.toNat - '0'.toNat) = 1 from by decide,
    show (999 : Int).toNat = 999 from rfl]
  norm_num

/-- The exact value of the literal `1e999` is `10^999`. -/
theorem parseNum_big : parseNum (("1e999" : String).toList) = some (pow10 999, []) := by
  have h0 : parseNum (("1e999" : String).toList) =
      some (mkJsonNum false ['1'] [] 999, []) := rfl
  rw [h0, mkJsonNum_big]

/-- `10^999` is past the double-overflow boundary, so the literal denotes
`Infinity`. -/
theorem jsonNumToDouble_big : jsonNumToDouble (pow10 999) = JsNum.posInf := by
  have hnat : (2 ^ 1024 - 2 ^ 970 : ℕ) ≤ (10 : ℕ) ^ 999 := by
    have s1 : (2 ^ 1024 - 2 ^ 970 : ℕ) ≤ 2 ^ 1024 := Nat.sub_le _ _
    have s2 : (2 ^ 1024 : ℕ) ≤ 2 ^ 2997 :=
      Nat.pow_le_pow_right (by norm_num) (by norm_num)
    have s3 : (2 ^ 2997 : ℕ) = (2 ^ 3) ^ 999 := by rw [← pow_mul]
    have s4 : ((2 ^ 3 : ℕ)) ^ 999 ≤ 10 ^ 999 :=
      Nat.pow_le_pow_left (by norm_num) 999
    exact le_trans s1 (le_trans s2 (le_trans (le_of_eq s3) s4))
  have hle : dblOverflow ≤ pow10 999 := by
    unfold dblOverflow pow10
    exact_mod_cast hnat
  unfold jsonNumToDouble
  rw [if_pos hle]

theorem clamp01_pow10 : clamp01 (pow10 999) = 1 := by
  have h1 := one_le_pow10 999
  unfold clamp01
  dsimp only
  split_ifs <;> linarith

/-- End-to-end run of the normalizer on the overflowing input: the output
confidence is `1`. -/
theorem normalize_sampleBig : normalize sampleBig = .ok [⟨"apple", 1, "apple"⟩] := by
  have hparse : parseJson sampleBig =
      some (Json.obj [("items", Json.arr [Json.obj
        [("label", Json.str "apple"),
         ("confidence", Json.num (mkJsonNum false ['1'] [] 999)),
         ("canonical", Json.str "")]])]) := rfl
  have hvalidate : validateItems (Json.obj [("items", Json.arr [Json.obj
      [("label", Json.str "apple"),
       ("confidence", Json.num (mkJsonNum false ['1'] [] 999)),
       ("canonical", Json.str "")]])]) =
      some [⟨"apple", mkJsonNum false ['1'] [] 999, ""⟩] := rfl
  have hsan : sanitizeItem ⟨"apple", pow10 999, ""⟩ = ⟨"apple", (1 : ℚ), ""⟩ := by
    refine recognizedItem_eq _ _ (by decide) ?_ (by decide)
    rw [sanitizeItem_confidence]
    exact clamp01_pow10
  unfold normalize
  rw [hparse]
  show normalizeJson _ = _
  unfold normalizeJson
  rw [hvalidate]
  show NormResult.ok (pipeline [⟨"apple", mkJsonNum false ['1'] [] 999, ""⟩]) = _
  rw [mkJsonNum_big]
  unfold pipeline stage3
  simp only [List.map_cons, List.map_nil, hsan]
  rw [List.filter_cons_of_pos (by decide), List.filter_nil, List.map_cons,
    List.map_nil]
  rw [show canonicalizeItem ⟨"apple", (1 : ℚ), ""⟩ =
    ⟨"apple", (1 : ℚ), "apple"⟩ from by decide]
  rfl

/-- Claim C4 counterexample: the literal `1e999` (exact value `10^999`)
denotes the double `Infinity`, which reaches the sanitize step (`z.number()`
without `.finite()` accepts it); there `Number(c) || 0` keeps it, because an
infinity is truthy, and the clamp sends it to `1` — not to the default `0`
the claim prescribes for every non-finite confidence.  The program's output
confidence on this input is `1`. -/
theorem claim4_cex :
    parseNum (("1e999" : String).toList) = some (pow10 999, []) ∧
    jsonNumToDouble (pow10 999) = JsNum.posInf ∧
    jsOrZeroN JsNum.posInf = JsNum.posInf ∧
    sanitizeConfN JsNum.posInf = JsNum.fin 1 ∧
    sanitizeConfN JsNum.posInf ≠ JsNum.fin 0 ∧
    normalize sampleBig = .ok [⟨"apple", 1, "apple"⟩] :=
  ⟨parseNum_big, jsonNumToDouble_big, by decide, by decide, by decide,
    normalize_sampleBig⟩

/-- Claim C4 as amended: for every item reaching the sanitize step, the
confidence is coerced to a number and passed through the falsy-coalescing
`|| 0`, which replaces only `NaN` (and zero) by `0`; a non-finite infinity —
reachable through an overflowing literal such as `1e999` — is kept and then
clamped, `+Infinity` to `1` and `-Infinity` to `0`; on finite confidences the
value is clamped to `[0, 1]`; so every output confidence is in `[0, 1]` even
when the input confidence was negative, greater than 1, `NaN`, or infinite. -/
theorem claim4_amended (y : JsNum) (it : RawItem) (s : String)
    (L : List RecognizedItem) (x : RecognizedItem)
    (h : normalize s = .ok L) (hx : x ∈ L) :
    sanitizeConfN (.fin it.confidence) =
      .fin (clamp01 (jsOrZero it.confidence)) ∧
    (sanitizeItem it).confidence = clamp01 (jsOrZero it.confidence) ∧
    sanitizeConfN JsNum.nan = JsNum.fin 0 ∧
    sanitizeConfN JsNum.posInf = JsNum.fin 1 ∧
    sanitizeConfN JsNum.negInf = JsNum.fin 0 ∧
    (sanitizeConfN y = .fin (finPart (sanitizeConfN y)) ∧
      0 ≤ finPart (sanitizeConfN y) ∧ finPart (sanitizeConfN y) ≤ 1) ∧
    (0 ≤ (sanitizeItem it).confidence ∧ (sanitizeItem it).confidence ≤ 1) ∧
    (0 ≤ x.confidence ∧ x.confidence ≤ 1) ∧
    (sanitizeItem ⟨"apple", -3, ""⟩).confidence = 0 ∧
    (sanitizeItem ⟨"apple", 3 / 2, ""⟩).confidence = 1 := by
  rcases normalize_ok_elim s L h with ⟨items, rfl⟩
  have hwf := pipeline_wf items x hx
  have hclamp := hwf.2.2.2.2.1
  refine ⟨sanitizeConfN_fin it.confidence, rfl, by decide, by decide, by decide,
    sanitizeConfN_bounds y, ?_, ?_, ?_, ?_⟩
  · rw [sanitizeItem_confidence]
    exact ⟨clamp01_nonneg _, clamp01_le_one _⟩
  · exact ⟨hclamp ▸ clamp01_nonneg x.confidence, hclamp ▸ clamp01_le_one x.confidence⟩
  · show clamp01 (jsOrZero (-3)) = 0
    rw [jsOrZero_eq]
    unfold clamp01
    norm_num
  · show clamp01 (jsOrZero (3 / 2)) = 1
    rw [jsOrZero_eq]
    unfold clamp01
    norm_num

/-- Witness for the amended C4, at an infinite confidence and the spaghetti
sample input. -/
theorem claim4_witness :
    sanitizeConfN (.fin ((7 : ℚ))) = .fin (clamp01 (jsOrZero (7 : ℚ))) ∧
    (sanitizeItem ⟨"Pear", (7 : ℚ), ""⟩).confidence =
      clamp01 (jsOrZero (7 : ℚ)) ∧
    sanitizeConfN JsNum.nan = JsNum.fin 0 ∧
    sanitizeConfN JsNum.posInf = JsNum.fin 1 ∧
    sanitizeConfN JsNum.negInf = JsNum.fin 0 ∧
    (sanitizeConfN JsNum.posInf =
      .fin (finPart (sanitizeConfN JsNum.posInf)) ∧
      0 ≤ finPart (sanitizeConfN JsNum.posInf) ∧
      finPart (sanitizeConfN JsNum.posInf) ≤ 1) ∧
    (0 ≤ (sanitizeItem ⟨"Pear", (7 : ℚ), ""⟩).confidence ∧
      (sanitizeItem ⟨"Pear", (7 : ℚ), ""⟩).confidence ≤ 1) ∧
    (0 ≤ spagItem.confidence ∧ spagItem.confidence ≤ 1) ∧
    (sanitizeItem ⟨"apple", -3, ""⟩).confidence = 0 ∧
    (sanitizeItem ⟨"apple", 3 / 2, ""⟩).confidence = 1 :=
  claim4_amended JsNum.posInf ⟨"Pear", 7, ""⟩ sampleSpaghetti [spagItem]
    spagItem (by with_unfolding_all decide) (by decide)

/-- Claim C5: for every input string that is not valid JSON, `normalize`
returns a parse error carrying a prefix of the offending text of at most 400
characters, and never a (partial) item list; success is all-or-nothing. -/
theorem claim5_parse_failure (s : String) (h : parseJson s = none) :
    normalize s = .parseError ⟨s.toList.take 400⟩ ∧
    (s.toList.take 400).length ≤ 400 ∧
    s.toList.take 400 ++ s.toList.drop 400 = s.toList := by
  refine ⟨?_, ?_, List.take_append_drop 400 s.toList⟩
  · unfold normalize
    rw [h]
  · rw [List.length_take]
    exact min_le_left _ _

/-- Witness for C5, at the `{not json` sample. -/
theorem claim5_witness :
    normalize sampleNotJson = .parseError ⟨sampleNotJson.toList.take 400⟩ ∧
    (sampleNotJson.toList.take 400).length ≤ 400 ∧
    sampleNotJson.toList.take 400 ++ sampleNotJson.toList.drop 400 =
      sampleNotJson.toList :=
  claim5_parse_failure sampleNotJson (by rfl)

/-- Claim C6: the rank-and-truncate step sorts descending by confidence with
stability (equal-confidence items keep their original relative order) and then
keeps at most the first 5 items. -/
theorem claim6_rank_truncate (l : List RecognizedItem) (q : ℚ)
    (items : List RawItem) :
    pipeline items = (rankSort (stage3 items)).take 5 ∧
    (rankSort l).Perm l ∧
    (rankSort l).Pairwise (fun a b => b.confidence ≤ a.confidence) ∧
    (rankSort l).filter (fun y => decide (y.confidence = q)) =
      l.filter (fun y => decide (y.confidence = q)) ∧
    (pipeline items).length ≤ 5 :=
  ⟨rfl, rankSort_perm l, rankSort_sorted l, filter_rankSort q l,
    pipeline_length_le items⟩

/-- Witness for C6, at a concrete two-item list with a confidence tie. -/
theorem claim6_witness :
    pipeline ([] : List RawItem) = (rankSort (stage3 [])).take 5 ∧
    (rankSort [spagItem, appleItem]).Perm [spagItem, appleItem] ∧
    (rankSort [spagItem, appleItem]).Pairwise
      (fun a b => b.confidence ≤ a.confidence) ∧
    (rankSort [spagItem, appleItem]).filter (fun y => decide (y.confidence = 0)) =
      ([spagItem, appleItem] : List RecognizedItem).filter
        (fun y => decide (y.confidence = 0)) ∧
    (pipeline ([] : List RawItem)).length ≤ 5 :=
  claim6_rank_truncate [spagItem, appleItem] 0 []

/-- Claim C7: the filter drops exactly the items whose sanitized label is
empty or banned, so the ban is case-insensitive; the uppercase `SNACK` input
and the empty `items` input both succeed with an empty list. -/
theorem claim7_filter (raw : RawItem) :
    (keepItem (sanitizeItem raw) = true ↔
      jsSan raw.label ≠ "" ∧ jsSan raw.label ∉ bannedTerms) ∧
    normalize sampleSnack = .ok [] ∧
    normalize sampleEmpty = .ok [] :=
  ⟨keepItem_iff (sanitizeItem raw), by with_unfolding_all decide, by decide⟩

/-- Witness for C7, at the uppercase `SNACK` item. -/
theorem claim7_witness :
    (keepItem (sanitizeItem ⟨"SNACK", (9 : ℚ) / 10, "snack"⟩) = true ↔
      jsSan "SNACK" ≠ "" ∧ jsSan "SNACK" ∉ bannedTerms) ∧
    normalize sampleSnack = .ok [] ∧
    normalize sampleEmpty = .ok [] :=
  claim7_filter ⟨"SNACK", 9 / 10, "snack"⟩

/-- Claim C8: normalization is idempotent: whenever `normalize` succeeds with
list `L`, re-wrapping `L` as `{items: L}` and re-running the validation and
pipeline yields exactly `L` again. -/
theorem claim8_idempotent (s : String) (L : List RecognizedItem)
    (h : normalize s = .ok L) : normalizeJson (wrapItems L) = .ok L := by
  rcases normalize_ok_elim s L h with ⟨items, rfl⟩
  unfold normalizeJson
  rw [validateItems_wrapItems]
  show NormResult.ok (pipeline ((pipeline items).map toRaw)) = _
  exact congrArg NormResult.ok
    (pipeline_fixed (pipeline items) (pipeline_wf items) (pipeline_sorted items)
      (pipeline_length_le items))

/-- Witness for C8, at the spaghetti sample input. -/
theorem claim8_witness : normalizeJson (wrapItems [spagItem]) = .ok [spagItem] :=
  claim8_idempotent sampleSpaghetti [spagItem] (by with_unfolding_all decide)

/-- Claim C9: an item with confidence 0 is not dropped: a schema-valid item
with a nonempty, non-banned sanitized label passes the filter whatever its
confidence, appears in the ranked list, and appears in the final output when
at most 5 items were supplied; the concrete confidence-0 apple input succeeds
with the apple item. -/
theorem claim9_zero_confidence_kept (items : List RawItem) (raw : RawItem)
    (hmem : raw ∈ items) (hlab : jsSan raw.label ≠ "")
    (hban : jsSan raw.label ∉ bannedTerms) :
    keepItem (sanitizeItem raw) = true ∧
    canonicalizeItem (sanitizeItem raw) ∈ rankSort (stage3 items) ∧
    (items.length ≤ 5 → canonicalizeItem (sanitizeItem raw) ∈ pipeline items) ∧
    normalize sampleApple = .ok [appleItem] := by
  have hkeep : keepItem (sanitizeItem raw) = true :=
    (keepItem_iff _).mpr ⟨hlab, hban⟩
  have hmem2 : canonicalizeItem (sanitizeItem raw) ∈ stage3 items := by
    unfold stage3
    exact List.mem_map_of_mem _
      (List.mem_filter.mpr ⟨List.mem_map_of_mem _ hmem, hkeep⟩)
  have hmem3 : canonicalizeItem (sanitizeItem raw) ∈ rankSort (stage3 items) :=
    (rankSort_perm _).mem_iff.mpr hmem2
  refine ⟨hkeep, hmem3, ?_, by with_unfolding_all decide⟩
  intro hlen
  have hst : (stage3 items).length ≤ items.length := by
    unfold stage3
    rw [List.length_map]
    exact le_trans (List.length_filter_le _ _)
      (le_of_eq (List.length_map _ _))
  have hlen2 : (rankSort (stage3 items)).length ≤ 5 := by
    rw [(rankSort_perm _).length_eq]
    exact le_trans hst hlen
  unfold pipeline
  rw [List.take_of_length_le hlen2]
  exact hmem3

/-- Witness for C9, at the confidence-0 apple input. -/
theorem claim9_witness :
    keepItem (sanitizeItem ⟨"apple", (0 : ℚ), ""⟩) = true ∧
    canonicalizeItem (sanitizeItem ⟨"apple", (0 : ℚ), ""⟩) ∈
      rankSort (stage3 [⟨"apple", (0 : ℚ), ""⟩]) ∧
    (([⟨"apple", (0 : ℚ), ""⟩] : List RawItem).length ≤ 5 →
      canonicalizeItem (sanitizeItem ⟨"apple", (0 : ℚ), ""⟩) ∈
        pipeline [⟨"apple", (0 : ℚ), ""⟩]) ∧
    normalize sampleApple = .ok [appleItem] :=
  claim9_zero_confidence_kept [⟨"apple", 0, ""⟩] ⟨"apple", 0, ""⟩
    (by decide) (by decide) (by decide)

theorem isSubL_isInfix (n l : List Char) : isSubL n l = true ↔ n <:+: l := by
  rw [isSubL_iff]
  constructor
  · rintro ⟨u, v, huv⟩
    exact ⟨u, v, huv.symm⟩
  · rintro ⟨u, v, huv⟩
    exact ⟨u, v, huv.symm⟩

/-- Claim C10: the canonicalization rules match substrings anywhere in the
label; a label containing a rule pattern anywhere triggers the corresponding
replacement, the orange rule overriding the fries rule, which overrides the
pasta rule, when several patterns occur in one label. -/
theorem claim10_substring_rules (n s l1 l2 l3 c : String) (q : ℚ)
    (h1 : orangeMatch l1 = true)
    (h2f : friesMatch l2 = true) (h2o : orangeMatch l2 = false)
    (h3p : pastaMatch l3 = true) (h3f : friesMatch l3 = false)
    (h3o : orangeMatch l3 = false) :
    (containsSub n s = true ↔ n.toList <:+: s.toList) ∧
    (canonicalizeItem ⟨l1, q, c⟩).canonical = "orange" ∧
    (canonicalizeItem ⟨l2, q, c⟩).canonical = "french fries" ∧
    (canonicalizeItem ⟨l3, q, c⟩).canonical = "pasta" ∧
    (canonicalizeItem ⟨"chicken noodle soup", q, c⟩).canonical = "pasta" ∧
    (canonicalizeItem ⟨"loaded fries and ketchup", q, c⟩).canonical =
      "french fries" ∧
    (canonicalizeItem ⟨"orange noodles with fries", q, c⟩).canonical =
      "orange" := by
  refine ⟨isSubL_isInfix n.toList s.toList, ?_, ?_, ?_, ?_, ?_, ?_⟩
  · rw [canonicalizeItem_canonical]; simp [h1]
  · rw [canonicalizeItem_canonical]; simp [h2f, h2o]
  · rw [canonicalizeItem_canonical]; simp [h3p, h3f, h3o]
  · rw [canonicalizeItem_canonical]
    simp [show orangeMatch "chicken noodle soup" = false from by decide,
      show friesMatch "chicken noodle soup" = false from by decide,
      show pastaMatch "chicken noodle soup" = true from by decide]
  · rw [canonicalizeItem_canonical]
    simp [show orangeMatch "loaded fries and ketchup" = false from by decide,
      show friesMatch "loaded fries and ketchup" = true from by decide]
  · rw [canonicalizeItem_canonical]
    simp [show orangeMatch "orange noodles with fries" = true from by decide]

/-- Witness for C10, at concrete labels for each rule. -/
theorem claim10_witness :
    (containsSub "noodle" "chicken noodle soup" = true ↔
      ("noodle" : String).toList <:+: ("chicken noodle soup" : String).toList) ∧
    (canonicalizeItem ⟨"mandarin", (0 : ℚ), "x"⟩).canonical = "orange" ∧
    (canonicalizeItem ⟨"fries", (0 : ℚ), "x"⟩).canonical = "french fries" ∧
    (canonicalizeItem ⟨"penne", (0 : ℚ), "x"⟩).canonical = "pasta" ∧
    (canonicalizeItem ⟨"chicken noodle soup", (0 : ℚ), "x"⟩).canonical =
      "pasta" ∧
    (canonicalizeItem ⟨"loaded fries and ketchup", (0 : ℚ), "x"⟩).canonical =
      "french fries" ∧
    (canonicalizeItem ⟨"orange noodles with fries", (0 : ℚ), "x"⟩).canonical =
      "orange" :=
  claim10_substring_rules "noodle" "chicken noodle soup" "mandarin" "fries"
    "penne" "x" 0 (by decide) (by decide) (by decide) (by decide) (by decide)
    (by decide)

end VisionBackend
